import Mathlib

/-!
Verification of the CV vectorize-and-upsert pipeline
(`src/utils/cv_vectorize.py`) against its specification.

Modelling conventions
- Python strings are sequences of code points, modelled as `Str := List Char`.
- `hashlib.sha256` and UTF-8 encoding are Python standard-library functions,
  external to the repository; they are abstracted as a `Crypto` bundle of an
  encoding function and a hex-digest function.  Every property proved here
  holds for an arbitrary such bundle, in particular for the real SHA-256.
- The external collaborators called by the orchestrator — the embedding
  facade `openai_mgr.embed_texts` and the store operations `store.docs.write`
  and `store.upsert_section` — are modelled as an `Env` of response
  functions.  The two store operations are not implemented anywhere under
  the repository sources (`store/weaviate_store.py` has neither `docs` nor
  `upsert_section`), so their result shapes are modelled from the spec's
  store write contract: `docs.write(...) -> record-or-falsy` (truthiness,
  a `Bool`) and `upsert_section(...) -> {"ok": bool, "error": optional
  string}` (`UpsertRes`, which also allows a non-mapping result since the
  orchestrator explicitly guards with `isinstance(res, dict)`).
- Raised Python exceptions are modelled as `Except Str`, the payload being
  the exception message.
- The logger is write-only and carries no data flow; it is not modelled.
- A `Trace` records, in call order, the embedding calls, document writes
  and section upserts the orchestrator performed in a run.
-/

/-- Python strings as sequences of code points. -/
abbrev Str := List Char

/-- Literal helper: the code points of a Lean string literal. -/
def S (s : String) : Str := s.data

/-- Guardrail on chunk size, `MAX_CHARS_PER_CHUNK = 4000` in the source. -/
def MAX_CHARS_PER_CHUNK : Nat := 4000

/-- Default embedding model name, `EMBED_MODEL_DEFAULT` in the source. -/
def EMBED_MODEL_DEFAULT : Str := S "text-embedding-3-large"

/-- Abstraction of the Python standard-library primitives used by
`_hash_text`: UTF-8 encoding of a string to bytes, and the SHA-256 hex
digest of a byte sequence.  Both are fixed pure functions in reality;
all theorems hold for an arbitrary bundle. -/
structure Crypto where
  utf8 : Str → List Nat
  sha256hex : List Nat → Str

/-- Embedding of `_hash_text(s, model)`: SHA-256 over the UTF-8 bytes of
`model`, a null separator byte, and the UTF-8 bytes of `s`
(`src/utils/cv_vectorize.py` lines 30-35). -/
def _hash_text (π : Crypto) (s model : Str) : Str :=
  π.sha256hex (π.utf8 model ++ [0] ++ π.utf8 s)

/-- Embedding of `_truncate(s, max_chars)`
(`src/utils/cv_vectorize.py` lines 38-43). -/
def _truncate (s : Str) (max_chars : Nat) : Str :=
  if s = [] then []
  else if s.length ≤ max_chars then s
  else s.take max_chars

/-- Python `str.strip()` (restricted to ASCII whitespace): drop whitespace
from both ends. -/
def pyStrip (s : Str) : Str :=
  ((s.dropWhile Char.isWhitespace).reverse.dropWhile Char.isWhitespace).reverse

/-- Python `str.split(sep)` for a single-character separator: split on every
occurrence, keeping empty pieces (`"".split(",") == [""]`). -/
def splitOnChar (sep : Char) : Str → List Str
  | [] => [[]]
  | c :: rest =>
    match splitOnChar sep rest with
    | [] => [[]]
    | h :: t => if c = sep then [] :: h :: t else (c :: h) :: t

/-- Embedding of the local helper `_lower_list(lst)`:
`[str(x).strip().lower() for x in lst if x]`
(`src/utils/cv_vectorize.py` lines 126-127). -/
def _lower_list (lst : List Str) : List Str :=
  (lst.filter fun x => !x.isEmpty).map fun x => (pyStrip x).map Char.toLower

/-- Embedding of `[s.strip() for s in v.split(",") if s.strip()]`, the
comma-splitting of a string-valued `skills_norm`/`industries_norm`
(`src/utils/cv_vectorize.py` lines 134, 141). -/
def splitCommaStrip (v : Str) : List Str :=
  ((splitOnChar ',' v).map pyStrip).filter fun x => !x.isEmpty

/-- A JSON value that is either a string or a list of strings, the two
input shapes accepted for `skills_norm` / `industries_norm`. -/
inductive StrOrList where
  | str (v : Str)
  | lst (v : List Str)
deriving DecidableEq

/-- The `extraction` mapping's fields read by the orchestrator; `none`
models an absent key (Python `dict.get` default). -/
structure ExtractionDict where
  skills_norm : Option StrOrList
  alma_mater : Option Str
  industries_norm : Option StrOrList
deriving DecidableEq

/-- The `extraction` value of the input JSON: either a mapping or some
truthy non-mapping value (carried by its string form, only ever passed
through opaquely). -/
inductive Extraction where
  | nonDict (txt : Str)
  | dict (d : ExtractionDict)
deriving DecidableEq

/-- Normalization of a `skills_norm` / `industries_norm` field
(`src/utils/cv_vectorize.py` lines 129-135 and 137-142):
`v = extraction.get(key, []) or []`; if `v` is a string it is comma-split
with per-piece strip and empty pieces removed; the result goes through
`_lower_list`. -/
def normStrListField (field : Option StrOrList) : List Str :=
  match field with
  | none => _lower_list []
  | some (StrOrList.str v) =>
    if v = [] then _lower_list []
    else _lower_list (splitCommaStrip v)
  | some (StrOrList.lst v) => _lower_list v

/-- The `skills_norm` routing signal derived from `extraction`
(`src/utils/cv_vectorize.py` lines 129-135): empty unless `extraction`
is a mapping. -/
def skillsFromExtraction : Extraction → List Str
  | Extraction.dict d => normStrListField d.skills_norm
  | Extraction.nonDict _ => []

/-- The `industries_norm` routing signal derived from `extraction`
(`src/utils/cv_vectorize.py` lines 137-142). -/
def industriesFromExtraction : Extraction → List Str
  | Extraction.dict d => normStrListField d.industries_norm
  | Extraction.nonDict _ => []

/-- The `alma_mater` signal, `str(extraction.get("alma_mater") or "") if
isinstance(extraction, dict) else ""` (`src/utils/cv_vectorize.py`
line 136).  Note the source applies no `.strip()` here. -/
def almaFromExtraction : Extraction → Str
  | Extraction.dict d => d.alma_mater.getD []
  | Extraction.nonDict _ => []

/-- One entry of the input's `sections` list; `none` fields model absent
keys (read via `dict.get`). -/
structure SectionIn where
  text : Option Str
  sectionName : Option Str
  subsection : Option Str
  page_start : Option Int
  page_end : Option Int
deriving DecidableEq

/-- The aggregated-document JSON given to `vectorize_and_upsert`; `none`
models an absent or falsy value (the source applies `or`-defaults). -/
structure FinalJson where
  candidate_id : Option Str
  source : Option Str
  sections : Option (List SectionIn)
  extraction : Option Extraction
deriving DecidableEq

/-- Metadata copied into a ChunkItem (`src/utils/cv_vectorize.py`
lines 96-101): `section` and `subsection` stripped, page bounds passed
through. -/
structure ChunkMeta where
  sectionName : Str
  subsection : Str
  page_start : Option Int
  page_end : Option Int
deriving DecidableEq

/-- Embedding of the chunk-preparation loop
(`src/utils/cv_vectorize.py` lines 91-102): truncate each section's text,
skip it when the truncated text is empty, otherwise emit the text with
its stripped metadata. -/
def prepareChunks (sections : List SectionIn) : List (Str × ChunkMeta) :=
  sections.filterMap fun ch =>
    let txt := _truncate (ch.text.getD []) MAX_CHARS_PER_CHUNK
    if txt = [] then none
    else some (txt,
      { sectionName := pyStrip (ch.sectionName.getD [])
        subsection := pyStrip (ch.subsection.getD [])
        page_start := ch.page_start
        page_end := ch.page_end })

/-- Attribute bundle passed to the store's document write
(`src/utils/cv_vectorize.py` lines 146-155). -/
structure Attrs where
  candidate_id : Str
  source : Str
  skills_norm : List Str
  alma_mater : Str
  industries_norm : List Str
  extraction : Extraction
  embed_model : Str
  embed_hash : Str
deriving DecidableEq

/-- Argument record of a `store.docs.write` call
(`src/utils/cv_vectorize.py` line 156). -/
structure DocWriteArgs (V : Type) where
  doc_hash : Str
  filename : Str
  full_text : Str
  attrs : Attrs
  vector : List V
deriving DecidableEq

/-- Argument record of a `store.upsert_section` call
(`src/utils/cv_vectorize.py` lines 165-178). -/
structure SectionArgs (V : Type) where
  parent_sha : Str
  sectionName : Str
  subsection : Str
  text : Str
  page_start : Option Int
  page_end : Option Int
  vector : List V
  model : Str
  embed_hash : Str
  skills_norm : List Str
  alma_mater : Str
  industries_norm : List Str
deriving DecidableEq

/-- Modelled from the spec: result of `store.upsert_section`, whose
implementation is absent from the repository sources.  The spec's store
contract gives `{"ok": bool, "error": optional string}`; a non-mapping
result (carried by its `str(...)` form) is also representable because the
orchestrator explicitly guards with `isinstance(res, dict)`. -/
inductive UpsertRes where
  | nonDict (txt : Str)
  | dict (ok : Bool) (error : Option Str)
deriving DecidableEq

/-- Failure check performed by the orchestrator on a section-upsert
result: `not isinstance(res, dict) or not res.get("ok")`
(`src/utils/cv_vectorize.py` line 180). -/
def upsertFailed : UpsertRes → Bool
  | UpsertRes.nonDict _ => true
  | UpsertRes.dict ok _ => !ok

/-- Error string rendered into the raised message:
`res.get("error") if isinstance(res, dict) else str(res)`, with Python's
`None` rendering as `"None"` inside the f-string
(`src/utils/cv_vectorize.py` lines 181, 184). -/
def upsertErrStr : UpsertRes → Str
  | UpsertRes.nonDict txt => txt
  | UpsertRes.dict _ e => e.getD (S "None")

/-- External collaborators of one run: the embedding facade (which either
returns the vectors or raises with a message) and the two store
operations.  `docsWrite` is modelled from the spec (`record-or-falsy`,
reduced to its truthiness); `upsertSection` returns an `UpsertRes`. -/
structure Env (V : Type) where
  embed : List Str → Str → Except Str (List (List V))
  docsWrite : DocWriteArgs V → Bool
  upsertSection : SectionArgs V → UpsertRes

/-- Trace of the external calls performed during a run, in call order. -/
structure Trace (V : Type) where
  embedCalls : List (List Str × Str)
  docWrites : List (DocWriteArgs V)
  sectionUpserts : List (SectionArgs V)
deriving DecidableEq

/-- Result record returned by a successful run
(`src/utils/cv_vectorize.py` lines 46-51). -/
structure VectorizeResult where
  document_sha : Str
  document_vector_dim : Nat
  sections_indexed : Nat
  model : Str
deriving DecidableEq

/-- The effective model name: `embed_model or EMBED_MODEL_DEFAULT`
(`src/utils/cv_vectorize.py` line 77). -/
def modelOf (em : Option Str) : Str := em.getD EMBED_MODEL_DEFAULT

/-- The `sections` value with its `or []` default
(`src/utils/cv_vectorize.py` line 82). -/
def sectionsOf (fj : FinalJson) : List SectionIn := fj.sections.getD []

/-- The `extraction` value with its `or {}` default
(`src/utils/cv_vectorize.py` line 83). -/
def extractionOf (fj : FinalJson) : Extraction :=
  fj.extraction.getD (Extraction.dict { skills_norm := none, alma_mater := none, industries_norm := none })

/-- Embedding of `doc_text_concat`: the original (untruncated) section texts joined by
blank lines (`src/utils/cv_vectorize.py` line 87). -/
def docConcat (fj : FinalJson) : Str :=
  List.intercalate (S "\n\n") ((sectionsOf fj).map fun s => s.text.getD [])

/-- The `doc_hash` of a run (`src/utils/cv_vectorize.py` line 88). -/
def docHashOf (π : Crypto) (fj : FinalJson) (em : Option Str) : Str :=
  _hash_text π (docConcat fj) (modelOf em)

/-- The ChunkItems of a run (`src/utils/cv_vectorize.py` lines 91-102). -/
def itemsOf (fj : FinalJson) : List (Str × ChunkMeta) :=
  prepareChunks (sectionsOf fj)

/-- Batches produced by `range(0, len(texts), max(1, batch_size))` with
slices `texts[i:i+batch_size]` (`src/utils/cv_vectorize.py`
lines 112-113), via a fuel argument bounding the iteration count. -/
def chunkGo (bs : Nat) : Nat → List Str → List (List Str)
  | 0, _ => []
  | _, [] => []
  | fuel + 1, ts => ts.take bs :: chunkGo bs fuel (ts.drop (max 1 bs))

/-- The batch list of one run; `ts.length` iterations always suffice since
the step is at least 1. -/
def pyBatches (bs : Nat) (ts : List Str) : List (List Str) :=
  chunkGo bs ts.length ts

/-- Sequential per-batch embedding calls with `vectors.extend(vecs)`
(`src/utils/cv_vectorize.py` lines 111-115): stop at the first raising
call, otherwise concatenate results in order.  Also returns the list of
embedding calls actually performed. -/
def embedBatches (env : Env V) (model : Str) :
    List (List Str) → Except Str (List (List V)) × List (List Str × Str)
  | [] => (Except.ok [], [])
  | b :: rest =>
    match env.embed b model with
    | Except.error e => (Except.error e, [(b, model)])
    | Except.ok vecs =>
      ((embedBatches env model rest).1.map fun vs => vecs ++ vs,
       (b, model) :: (embedBatches env model rest).2)

/-- Argument of the coarse document-level embedding call:
`[_truncate(doc_text_concat, MAX_CHARS_PER_CHUNK * 2)]`
(`src/utils/cv_vectorize.py` line 120). -/
def docEmbedArg (fj : FinalJson) : List Str :=
  [_truncate (docConcat fj) (MAX_CHARS_PER_CHUNK * 2)]

/-- The `doc_vector` after the `try/except` (`src/utils/cv_vectorize.py`
lines 118-122): the first vector of the facade's answer, or `[]` when the
call raises (or returns no vector, in which case the `[0]` indexing raises
and is likewise caught). -/
def docVecOf (env : Env V) (fj : FinalJson) (em : Option Str) : List V :=
  match env.embed (docEmbedArg fj) (modelOf em) with
  | Except.ok (v :: _) => v
  | _ => []

/-- The dimensionality reported for the document vector:
`len(doc_vector) if doc_vector else 0` (`src/utils/cv_vectorize.py`
line 188). -/
def docDimOf (env : Env V) (fj : FinalJson) (em : Option Str) : Nat :=
  if (docVecOf env fj em).isEmpty then 0 else (docVecOf env fj em).length

/-- The `skills_norm` signal of a run. -/
def skillsOf (fj : FinalJson) : List Str := skillsFromExtraction (extractionOf fj)

/-- The `industries_norm` signal of a run. -/
def industriesOf (fj : FinalJson) : List Str := industriesFromExtraction (extractionOf fj)

/-- The `alma_mater` signal of a run. -/
def almaOf (fj : FinalJson) : Str := almaFromExtraction (extractionOf fj)

/-- Embedding of `filename = source.split("/")[-1].split("\\")[-1]`
(`src/utils/cv_vectorize.py` line 145). -/
def lastSeg (source : Str) : Str :=
  (splitOnChar '\\' ((splitOnChar '/' source).getLastD [])).getLastD []

/-- The attribute bundle of a run (`src/utils/cv_vectorize.py`
lines 146-155). -/
def attrsOf (π : Crypto) (fj : FinalJson) (em : Option Str) : Attrs :=
  { candidate_id := fj.candidate_id.getD []
    source := fj.source.getD []
    skills_norm := skillsOf fj
    alma_mater := almaOf fj
    industries_norm := industriesOf fj
    extraction := extractionOf fj
    embed_model := modelOf em
    embed_hash := docHashOf π fj em }

/-- The document-write call of a run (`src/utils/cv_vectorize.py`
line 156). -/
def dwOf (π : Crypto) (env : Env V) (fj : FinalJson) (em : Option Str) : DocWriteArgs V :=
  { doc_hash := docHashOf π fj em
    filename := lastSeg (fj.source.getD [])
    full_text := docConcat fj
    attrs := attrsOf π fj em
    vector := docVecOf env fj em }

/-- Argument record of the section upsert for one `(item, vector)` pair
(`src/utils/cv_vectorize.py` lines 162, 165-178), including the per-section
`embed_hash = _hash_text(text, model)`. -/
def mkSectionArgs (π : Crypto) (doc_hash model : Str) (skills_norm : List Str)
    (alma_mater : Str) (industries_norm : List Str)
    (pair : (Str × ChunkMeta) × List V) : SectionArgs V :=
  { parent_sha := doc_hash
    sectionName := pair.1.2.sectionName
    subsection := pair.1.2.subsection
    text := pair.1.1
    page_start := pair.1.2.page_start
    page_end := pair.1.2.page_end
    vector := pair.2
    model := model
    embed_hash := _hash_text π pair.1.1 model
    skills_norm := skills_norm
    alma_mater := alma_mater
    industries_norm := industries_norm }

/-- The section-upsert loop (`src/utils/cv_vectorize.py` lines 161-184):
for each `(item, vector)` pair of the zip, compute the section's
`embed_hash`, perform the upsert, and raise at the first result failing
the check; also returns the section-upsert calls actually performed. -/
def upsertLoop (π : Crypto) (env : Env V) (doc_hash model : Str)
    (skills_norm : List Str) (alma_mater : Str) (industries_norm : List Str) :
    List ((Str × ChunkMeta) × List V) → Except Str Unit × List (SectionArgs V)
  | [] => (Except.ok (), [])
  | pair :: rest =>
    let args := mkSectionArgs π doc_hash model skills_norm alma_mater industries_norm pair
    let res := env.upsertSection args
    if upsertFailed res then
      (Except.error (S "Section upsert failed: " ++ upsertErrStr res), [args])
    else
      ((upsertLoop π env doc_hash model skills_norm alma_mater industries_norm rest).1,
       args :: (upsertLoop π env doc_hash model skills_norm alma_mater industries_norm rest).2)

/-- The message raised on a falsy document-write result
(`src/utils/cv_vectorize.py` line 158). -/
def DOC_WRITE_FAIL_MSG : Str := S "Document write failed or could not be verified in Weaviate"

/-- Embedding of `vectorize_and_upsert(final_json, ..., embed_model,
batch_size)` (`src/utils/cv_vectorize.py` lines 54-191), returning the
run's outcome (result or raised message) together with the trace of
external calls performed. -/
def vectorize_and_upsert (π : Crypto) (env : Env V) (fj : FinalJson)
    (em : Option Str) (bs : Nat) : Except Str VectorizeResult × Trace V :=
  let model := modelOf em
  let doc_hash := docHashOf π fj em
  let items := itemsOf fj
  if items.isEmpty then
    (Except.ok { document_sha := doc_hash, document_vector_dim := 0,
                 sections_indexed := 0, model := model },
     { embedCalls := [], docWrites := [], sectionUpserts := [] })
  else
    let eb := embedBatches env model (pyBatches bs (items.map Prod.fst))
    match eb.1 with
    | Except.error e =>
      (Except.error e, { embedCalls := eb.2, docWrites := [], sectionUpserts := [] })
    | Except.ok vectors =>
      let allCalls := eb.2 ++ [(docEmbedArg fj, model)]
      let dw := dwOf π env fj em
      if env.docsWrite dw then
        let ul := upsertLoop π env doc_hash model (skillsOf fj) (almaOf fj)
          (industriesOf fj) (items.zip vectors)
        (ul.1.map fun _ =>
          { document_sha := doc_hash, document_vector_dim := docDimOf env fj em,
            sections_indexed := items.length, model := model },
         { embedCalls := allCalls, docWrites := [dw], sectionUpserts := ul.2 })
      else
        (Except.error DOC_WRITE_FAIL_MSG,
         { embedCalls := allCalls, docWrites := [dw], sectionUpserts := [] })

/-! ## Structural lemmas about the pipeline stages -/

/-- When the upsert loop completes without raising, it performed exactly one
upsert per pair, in order, and every performed upsert's result passed the
fail-fast check. -/
theorem upsertLoop_ok (π : Crypto) (env : Env V) (dh m : Str)
    (sk : List Str) (am : Str) (ind : List Str) :
    ∀ pairs ups, upsertLoop π env dh m sk am ind pairs = (Except.ok (), ups) →
      ups = pairs.map (mkSectionArgs π dh m sk am ind) ∧
      ∀ a ∈ ups, upsertFailed (env.upsertSection a) = false := by
  intro pairs
  induction pairs with
  | nil =>
    intro ups h
    simp only [upsertLoop] at h
    injection h with h1 h2
    subst h2
    simp
  | cons pair rest ih =>
    intro ups h
    simp only [upsertLoop] at h
    by_cases hf : upsertFailed (env.upsertSection (mkSectionArgs π dh m sk am ind pair)) = true
    · rw [if_pos hf] at h
      exact absurd (congrArg Prod.fst h) (by simp)
    · rw [if_neg hf] at h
      rcases hrec : upsertLoop π env dh m sk am ind rest with ⟨r, calls⟩
      simp only [hrec] at h
      injection h with h1 h2
      subst h2
      rw [h1] at hrec
      obtain ⟨hmap, hall⟩ := ih calls hrec
      subst hmap
      refine ⟨by simp, ?_⟩
      intro a ha
      rcases List.mem_cons.mp ha with rfl | ha'
      · simpa using hf
      · exact hall a ha'

/-- When the upsert loop raises, the performed upserts are a non-empty list
whose last call's result failed the fail-fast check, every earlier call's
result passed it, and the raised message is `"Section upsert failed: "`
followed by the failing result's error string. -/
theorem upsertLoop_error (π : Crypto) (env : Env V) (dh m : Str)
    (sk : List Str) (am : Str) (ind : List Str) :
    ∀ pairs e ups, upsertLoop π env dh m sk am ind pairs = (Except.error e, ups) →
      ∃ pre a, ups = pre ++ [a] ∧
        (∀ b ∈ pre, upsertFailed (env.upsertSection b) = false) ∧
        upsertFailed (env.upsertSection a) = true ∧
        e = S "Section upsert failed: " ++ upsertErrStr (env.upsertSection a) := by
  intro pairs
  induction pairs with
  | nil =>
    intro e ups h
    simp only [upsertLoop] at h
    exact absurd (congrArg Prod.fst h) (by simp)
  | cons pair rest ih =>
    intro e ups h
    simp only [upsertLoop] at h
    by_cases hf : upsertFailed (env.upsertSection (mkSectionArgs π dh m sk am ind pair)) = true
    · rw [if_pos hf] at h
      injection h with h1 h2
      injection h1 with h1
      exact ⟨[], mkSectionArgs π dh m sk am ind pair, by simp [h2.symm], by simp, hf, h1.symm⟩
    · rw [if_neg hf] at h
      rcases hrec : upsertLoop π env dh m sk am ind rest with ⟨r, calls⟩
      simp only [hrec] at h
      injection h with h1 h2
      subst h2
      rw [h1] at hrec
      obtain ⟨pre, a, hsplit, hpre, hfail, hmsg⟩ := ih e calls hrec
      refine ⟨mkSectionArgs π dh m sk am ind pair :: pre, a, by simp [hsplit], ?_, hfail, hmsg⟩
      intro b hb
      rcases List.mem_cons.mp hb with rfl | hb'
      · simpa using hf
      · exact hpre b hb'

/-- Every upsert call performed by the loop carries
`embed_hash = _hash_text(its text, model)` and `parent_sha = doc_hash`. -/
theorem upsertLoop_hashes (π : Crypto) (env : Env V) (dh m : Str)
    (sk : List Str) (am : Str) (ind : List Str) :
    ∀ pairs, ∀ a ∈ (upsertLoop π env dh m sk am ind pairs).2,
      a.embed_hash = _hash_text π a.text m ∧ a.parent_sha = dh := by
  intro pairs
  induction pairs with
  | nil => intro a ha; simp [upsertLoop] at ha
  | cons pair rest ih =>
    intro a ha
    simp only [upsertLoop] at ha
    by_cases hf : upsertFailed (env.upsertSection (mkSectionArgs π dh m sk am ind pair)) = true
    · rw [if_pos hf] at ha
      simp only [List.mem_singleton] at ha
      subst ha
      exact ⟨rfl, rfl⟩
    · rw [if_neg hf] at ha
      simp only [List.mem_cons] at ha
      rcases ha with rfl | ha'
      · exact ⟨rfl, rfl⟩
      · exact ih a ha'

/-- Case analysis of a full run: it is an empty-input skip, a chunk-batch
embedding failure, a document-write failure, or a completed document write
followed by the section-upsert loop whose outcome decides the run. -/
theorem run_cases (π : Crypto) (env : Env V) (fj : FinalJson) (em : Option Str) (bs : Nat) :
    (itemsOf fj = [] ∧
      vectorize_and_upsert π env fj em bs =
        (Except.ok { document_sha := docHashOf π fj em, document_vector_dim := 0,
                     sections_indexed := 0, model := modelOf em },
         { embedCalls := [], docWrites := [], sectionUpserts := [] }))
    ∨ (itemsOf fj ≠ [] ∧ ∃ e calls,
        embedBatches env (modelOf em) (pyBatches bs ((itemsOf fj).map Prod.fst)) =
          (Except.error e, calls) ∧
        vectorize_and_upsert π env fj em bs =
          (Except.error e, { embedCalls := calls, docWrites := [], sectionUpserts := [] }))
    ∨ (itemsOf fj ≠ [] ∧ ∃ vectors calls,
        embedBatches env (modelOf em) (pyBatches bs ((itemsOf fj).map Prod.fst)) =
          (Except.ok vectors, calls) ∧
        ((env.docsWrite (dwOf π env fj em) = false ∧
          vectorize_and_upsert π env fj em bs =
            (Except.error DOC_WRITE_FAIL_MSG,
             { embedCalls := calls ++ [(docEmbedArg fj, modelOf em)],
               docWrites := [dwOf π env fj em], sectionUpserts := [] }))
         ∨ (env.docsWrite (dwOf π env fj em) = true ∧ ∃ res2 ups,
             upsertLoop π env (docHashOf π fj em) (modelOf em) (skillsOf fj) (almaOf fj)
               (industriesOf fj) ((itemsOf fj).zip vectors) = (res2, ups) ∧
             vectorize_and_upsert π env fj em bs =
               (res2.map fun _ =>
                 { document_sha := docHashOf π fj em,
                   document_vector_dim := docDimOf env fj em,
                   sections_indexed := (itemsOf fj).length, model := modelOf em },
                { embedCalls := calls ++ [(docEmbedArg fj, modelOf em)],
                  docWrites := [dwOf π env fj em], sectionUpserts := ups })))) := by
  by_cases hI : (itemsOf fj).isEmpty
  · exact Or.inl ⟨List.isEmpty_iff.mp hI, by simp [vectorize_and_upsert, hI]⟩
  · have hne : itemsOf fj ≠ [] := fun h => hI (h ▸ rfl)
    rcases hE : embedBatches env (modelOf em) (pyBatches bs ((itemsOf fj).map Prod.fst))
      with ⟨r, calls⟩
    cases r with
    | error e =>
      refine Or.inr (Or.inl ⟨hne, e, calls, rfl, ?_⟩)
      simp only [vectorize_and_upsert, if_neg hI, hE]
    | ok vectors =>
      refine Or.inr (Or.inr ⟨hne, vectors, calls, rfl, ?_⟩)
      by_cases hW : env.docsWrite (dwOf π env fj em)
      · rcases hU : upsertLoop π env (docHashOf π fj em) (modelOf em) (skillsOf fj)
          (almaOf fj) (industriesOf fj) ((itemsOf fj).zip vectors) with ⟨res2, ups⟩
        refine Or.inr ⟨hW, res2, ups, rfl, ?_⟩
        simp only [vectorize_and_upsert, if_neg hI, hE, if_pos hW, hU]
      · refine Or.inl ⟨by simpa using hW, ?_⟩
        simp only [vectorize_and_upsert, if_neg hI, hE, if_neg hW]

/-! ## Concrete instances used by witnesses and counterexamples -/

/-- Concrete crypto bundle for witnesses (any bundle satisfies the
theorems; this one keeps evaluation small). -/
def cryptoA : Crypto :=
  { utf8 := fun s => s.map Char.toNat
    sha256hex := fun bs => bs.map fun n => Char.ofNat (48 + n % 10) }

/-- Environment in which every external call succeeds, with 2-dimensional
vectors. -/
def envA : Env Int :=
  { embed := fun ts _ => Except.ok (ts.map fun _ => [1, 2])
    docsWrite := fun _ => true
    upsertSection := fun _ => UpsertRes.dict true none }

/-- Input whose `sections` list is present but empty (Scenario A). -/
def fjEmpty : FinalJson :=
  { candidate_id := none, source := none, sections := some [], extraction := none }

/-- A plain one-word section entry. -/
def secA : SectionIn :=
  { text := some (S "alpha"), sectionName := some (S "Experience"),
    subsection := none, page_start := some 1, page_end := some 2 }

/-- A second plain section entry. -/
def secB : SectionIn :=
  { text := some (S "beta"), sectionName := some (S "Skills"),
    subsection := none, page_start := none, page_end := none }

/-- A two-section input document. -/
def fjTwo : FinalJson :=
  { candidate_id := some (S "c1"), source := some (S "dir/cv.pdf"),
    sections := some [secA, secB], extraction := none }

/-! ## C9 — truncation boundary behaviour -/

/-- C9: `_truncate` leaves a string unchanged when its length is at most
`MAX_CHARS_PER_CHUNK` (in particular at exactly the bound), and for longer
strings returns exactly the first `MAX_CHARS_PER_CHUNK` characters (a
prefix of the input of exactly that length, namely `take`). -/
theorem truncate_boundary (s : Str) :
    (s.length ≤ MAX_CHARS_PER_CHUNK → _truncate s MAX_CHARS_PER_CHUNK = s) ∧
    (MAX_CHARS_PER_CHUNK + 1 ≤ s.length →
      _truncate s MAX_CHARS_PER_CHUNK = s.take MAX_CHARS_PER_CHUNK ∧
      (_truncate s MAX_CHARS_PER_CHUNK).length = MAX_CHARS_PER_CHUNK ∧
      _truncate s MAX_CHARS_PER_CHUNK <+: s) := by
  constructor
  · intro h
    unfold _truncate
    by_cases he : s = []
    · simp [he]
    · rw [if_neg he, if_pos h]
  · intro h
    have hne : s ≠ [] := by
      intro he
      rw [he] at h
      simp [MAX_CHARS_PER_CHUNK] at h
    have hgt : ¬s.length ≤ MAX_CHARS_PER_CHUNK := by omega
    unfold _truncate
    rw [if_neg hne, if_neg hgt]
    refine ⟨rfl, ?_, List.take_prefix _ _⟩
    rw [List.length_take]
    omega

/-- Witness for C9 at a 4001-character string and at a short string. -/
theorem truncate_boundary_witness :
    (_truncate (List.replicate 4001 'a') MAX_CHARS_PER_CHUNK).length = MAX_CHARS_PER_CHUNK ∧
    _truncate (S "hi") MAX_CHARS_PER_CHUNK = S "hi" :=
  ⟨((truncate_boundary (List.replicate 4001 'a')).2
      (by rw [List.length_replicate]; decide)).2.1,
   (truncate_boundary (S "hi")).1 (by decide)⟩

/-! ## C2 — empty-input runs skip with no external calls -/

/-- C2: when the sections yield zero ChunkItems after truncation and
emptiness filtering (in particular for `sections = []`), the run returns a
result with `sections_indexed = 0` without raising, and the trace shows no
embedding calls, no document writes and no section upserts. -/
theorem skip_empty (π : Crypto) {V : Type} (env : Env V) (fj : FinalJson)
    (em : Option Str) (bs : Nat) (h : itemsOf fj = []) :
    vectorize_and_upsert π env fj em bs =
      (Except.ok { document_sha := docHashOf π fj em, document_vector_dim := 0,
                   sections_indexed := 0, model := modelOf em },
       { embedCalls := [], docWrites := [], sectionUpserts := [] }) := by
  rcases run_cases π env fj em bs with ⟨-, hrun⟩ | ⟨hne, -⟩ | ⟨hne, -⟩
  · exact hrun
  · exact absurd h hne
  · exact absurd h hne

/-- Witness for C2 at the `sections = []` input. -/
theorem skip_empty_witness :
    itemsOf fjEmpty = [] ∧
    vectorize_and_upsert cryptoA envA fjEmpty none 64 =
      (Except.ok { document_sha := docHashOf cryptoA fjEmpty none, document_vector_dim := 0,
                   sections_indexed := 0, model := modelOf none },
       { embedCalls := [], docWrites := [], sectionUpserts := [] }) :=
  ⟨by decide, skip_empty cryptoA envA fjEmpty none 64 (by decide)⟩

/-! ## C5 — document-write failure raises before any section upsert -/

/-- C5: when the store's document write returns a falsy result, the run
raises (with the document-write failure message) and no section-upsert
call is made. -/
theorem doc_write_fail_fatal (π : Crypto) {V : Type} (env : Env V) (fj : FinalJson)
    (em : Option Str) (bs : Nat) (res : Except Str VectorizeResult) (tr : Trace V)
    (h : vectorize_and_upsert π env fj em bs = (res, tr))
    (dw : DocWriteArgs V) (hdw : dw ∈ tr.docWrites)
    (hfalsy : env.docsWrite dw = false) :
    res = Except.error DOC_WRITE_FAIL_MSG ∧ tr.sectionUpserts = [] := by
  rcases run_cases π env fj em bs with ⟨-, hrun⟩ | ⟨-, e, calls, -, hrun⟩ |
    ⟨-, vectors, calls, hE, ⟨hW, hrun⟩ | ⟨hW, res2, ups, hU, hrun⟩⟩
  · have hp := h.symm.trans hrun
    injection hp with hres htr
    rw [htr] at hdw
    simp at hdw
  · have hp := h.symm.trans hrun
    injection hp with hres htr
    rw [htr] at hdw
    simp at hdw
  · have hp := h.symm.trans hrun
    injection hp with hres htr
    refine ⟨hres, ?_⟩
    rw [htr]
  · have hp := h.symm.trans hrun
    injection hp with hres htr
    rw [htr] at hdw
    simp only [List.mem_singleton] at hdw
    rw [hdw] at hfalsy
    rw [hW] at hfalsy
    simp at hfalsy

/-- Environment whose document write is rejected (falsy result). -/
def envDocFail : Env Int :=
  { embed := fun ts _ => Except.ok (ts.map fun _ => [1, 2])
    docsWrite := fun _ => false
    upsertSection := fun _ => UpsertRes.dict true none }

/-- Witness for C5 on a concrete run with a rejected document write. -/
theorem doc_write_fail_fatal_witness :
    (vectorize_and_upsert cryptoA envDocFail fjTwo none 64).1 =
      Except.error DOC_WRITE_FAIL_MSG ∧
    (vectorize_and_upsert cryptoA envDocFail fjTwo none 64).2.sectionUpserts = [] :=
  doc_write_fail_fatal cryptoA envDocFail fjTwo none 64
    (vectorize_and_upsert cryptoA envDocFail fjTwo none 64).1
    (vectorize_and_upsert cryptoA envDocFail fjTwo none 64).2
    rfl
    (dwOf cryptoA envDocFail fjTwo none)
    (by decide)
    (by decide)

/-! ## C3 — content-addressed hashing is pure and deterministic -/

/-- Every successful run reports `document_sha = _hash_text(doc_text_concat,
model)` and gives every performed section upsert
`embed_hash = _hash_text(its truncated text, model)`. -/
theorem ok_run_sha (π : Crypto) {V : Type} (env : Env V) (fj : FinalJson)
    (em : Option Str) (bs : Nat) (r : VectorizeResult) (tr : Trace V)
    (h : vectorize_and_upsert π env fj em bs = (Except.ok r, tr)) :
    r.document_sha = _hash_text π (docConcat fj) (modelOf em) ∧
    ∀ a ∈ tr.sectionUpserts, a.embed_hash = _hash_text π a.text (modelOf em) := by
  rcases run_cases π env fj em bs with ⟨-, hrun⟩ | ⟨-, e, calls, -, hrun⟩ |
    ⟨-, vectors, calls, hE, ⟨hW, hrun⟩ | ⟨hW, res2, ups, hU, hrun⟩⟩
  · have hp := h.symm.trans hrun
    injection hp with hres htr
    injection hres with hres
    rw [hres, htr]
    exact ⟨rfl, by simp⟩
  · have hp := h.symm.trans hrun
    injection hp with hres htr
    simp at hres
  · have hp := h.symm.trans hrun
    injection hp with hres htr
    simp at hres
  · have hp := h.symm.trans hrun
    injection hp with hres htr
    cases res2 with
    | error e => simp [Except.map] at hres
    | ok u =>
      injection hres with hres
      rw [hres, htr]
      refine ⟨rfl, ?_⟩
      intro a ha
      have hups : ups = (upsertLoop π env (docHashOf π fj em) (modelOf em) (skillsOf fj)
          (almaOf fj) (industriesOf fj) ((itemsOf fj).zip vectors)).2 :=
        (congrArg Prod.snd hU).symm
      rw [hups] at ha
      exact (upsertLoop_hashes π env (docHashOf π fj em) (modelOf em) (skillsOf fj)
        (almaOf fj) (industriesOf fj) ((itemsOf fj).zip vectors) a ha).1

/-- C3: the `document_sha` of a successful run equals the content hash of
the model name together with the original untruncated section texts joined
by blank lines; every performed section upsert carries
`embed_hash = _hash_text(its text, model)`; and any second successful run
on the same document and model (with any environment, vector type, or
batch size) reports the same `document_sha`. -/
theorem document_sha_pure (π : Crypto) {V : Type} (env : Env V) (fj : FinalJson)
    (em : Option Str) (bs : Nat) (r : VectorizeResult) (tr : Trace V)
    (h : vectorize_and_upsert π env fj em bs = (Except.ok r, tr)) :
    r.document_sha = _hash_text π (docConcat fj) (modelOf em) ∧
    (∀ a ∈ tr.sectionUpserts, a.embed_hash = _hash_text π a.text (modelOf em)) ∧
    ∀ {V2 : Type} (env2 : Env V2) (bs2 : Nat) (r2 : VectorizeResult) (tr2 : Trace V2),
      vectorize_and_upsert π env2 fj em bs2 = (Except.ok r2, tr2) →
      r2.document_sha = r.document_sha := by
  obtain ⟨h1, h2⟩ := ok_run_sha π env fj em bs r tr h
  refine ⟨h1, h2, ?_⟩
  intro V2 env2 bs2 r2 tr2 h'
  rw [(ok_run_sha π env2 fj em bs2 r2 tr2 h').1, h1]

/-- Result record of the all-success run of `fjTwo` under `envA`. -/
def rA : VectorizeResult :=
  { document_sha := docHashOf cryptoA fjTwo none, document_vector_dim := 2,
    sections_indexed := 2, model := EMBED_MODEL_DEFAULT }

/-- Witness for C3 on the concrete all-success run of `fjTwo`. -/
theorem document_sha_pure_witness :
    rA.document_sha = _hash_text cryptoA (docConcat fjTwo) (modelOf none) ∧
    (∀ a ∈ (vectorize_and_upsert cryptoA envA fjTwo none 64).2.sectionUpserts,
      a.embed_hash = _hash_text cryptoA a.text (modelOf none)) ∧
    ∀ {V2 : Type} (env2 : Env V2) (bs2 : Nat) (r2 : VectorizeResult) (tr2 : Trace V2),
      vectorize_and_upsert cryptoA env2 fjTwo none bs2 = (Except.ok r2, tr2) →
      r2.document_sha = rA.document_sha :=
  document_sha_pure cryptoA envA fjTwo none 64 rA
    (vectorize_and_upsert cryptoA envA fjTwo none 64).2 rfl

/-! ## C10 — sections_indexed counts ChunkItems, not performed upserts -/

/-- C10: a run that returns normally reports `sections_indexed` equal to the
number of surviving ChunkItems; the number of section upserts actually
performed is `min (number of ChunkItems) (number of vectors returned by the
facade)` — so when the facade returned fewer vectors than chunk texts, the
unpaired trailing chunks are silently skipped without error and
`sections_indexed` exceeds the number of upserts performed. -/
theorem sections_indexed_vs_upserts (π : Crypto) {V : Type} (env : Env V)
    (fj : FinalJson) (em : Option Str) (bs : Nat) (r : VectorizeResult) (tr : Trace V)
    (h : vectorize_and_upsert π env fj em bs = (Except.ok r, tr)) :
    r.sections_indexed = (itemsOf fj).length ∧
    tr.sectionUpserts.length ≤ r.sections_indexed ∧
    ∀ vs calls,
      embedBatches env (modelOf em) (pyBatches bs ((itemsOf fj).map Prod.fst)) =
        (Except.ok vs, calls) →
      tr.sectionUpserts.length = min (itemsOf fj).length vs.length := by
  rcases run_cases π env fj em bs with ⟨hI, hrun⟩ | ⟨-, e, calls, -, hrun⟩ |
    ⟨-, vectors, calls, hE, ⟨hW, hrun⟩ | ⟨hW, res2, ups, hU, hrun⟩⟩
  · have hp := h.symm.trans hrun
    injection hp with hres htr
    injection hres with hres
    rw [hres, htr, hI]
    refine ⟨rfl, by simp, ?_⟩
    intro vs calls hvs
    simp only [List.map_nil, pyBatches, List.length_nil] at hvs
    simp only [chunkGo, embedBatches] at hvs
    injection hvs with h1 h2
    injection h1 with h1
    rw [← h1]
    simp
  · have hp := h.symm.trans hrun
    injection hp with hres htr
    simp at hres
  · have hp := h.symm.trans hrun
    injection hp with hres htr
    simp at hres
  · have hp := h.symm.trans hrun
    injection hp with hres htr
    cases res2 with
    | error e => simp [Except.map] at hres
    | ok u =>
      injection hres with hres
      obtain ⟨hmap, -⟩ := upsertLoop_ok π env (docHashOf π fj em) (modelOf em)
        (skillsOf fj) (almaOf fj) (industriesOf fj) ((itemsOf fj).zip vectors) ups hU
      have hlen : ups.length = min (itemsOf fj).length vectors.length := by
        rw [hmap, List.length_map, List.length_zip]
      rw [hres, htr]
      refine ⟨rfl, ?_, ?_⟩
      · rw [hlen]
        exact Nat.min_le_left _ _
      · intro vs calls2 hvs
        have : (Except.ok vectors, calls) = (Except.ok vs, calls2) := hE.symm.trans hvs
        injection this with h1 h2
        injection h1 with h1
        rw [hlen, h1]

/-- Environment whose embedding facade always returns a single vector,
fewer than the number of texts submitted. -/
def envShort : Env Int :=
  { embed := fun _ _ => Except.ok [[7]]
    docsWrite := fun _ => true
    upsertSection := fun _ => UpsertRes.dict true none }

/-- Result record of the run of `fjTwo` under `envShort`. -/
def rShort : VectorizeResult :=
  { document_sha := docHashOf cryptoA fjTwo none, document_vector_dim := 1,
    sections_indexed := 2, model := EMBED_MODEL_DEFAULT }

/-- Witness for C10: a concrete run whose facade returned one vector for two
chunk texts reports `sections_indexed = 2` while performing one upsert. -/
theorem sections_indexed_vs_upserts_witness :
    (rShort.sections_indexed = (itemsOf fjTwo).length ∧
      (vectorize_and_upsert cryptoA envShort fjTwo none 64).2.sectionUpserts.length ≤
        rShort.sections_indexed ∧
      ∀ vs calls,
        embedBatches envShort (modelOf none) (pyBatches 64 ((itemsOf fjTwo).map Prod.fst)) =
          (Except.ok vs, calls) →
        (vectorize_and_upsert cryptoA envShort fjTwo none 64).2.sectionUpserts.length =
          min (itemsOf fjTwo).length vs.length) ∧
    (vectorize_and_upsert cryptoA envShort fjTwo none 64).2.sectionUpserts.length = 1 ∧
    rShort.sections_indexed = 2 :=
  ⟨sections_indexed_vs_upserts cryptoA envShort fjTwo none 64 rShort
      (vectorize_and_upsert cryptoA envShort fjTwo none 64).2 rfl,
   by decide, by decide⟩

/-! ## C1 — section-upsert failure handling (corrected) -/

/-- Environment whose section upserts answer with a mapping that has a
truthy `ok` field but also carries an explicit `error` field. -/
def envErrField : Env Int :=
  { embed := fun ts _ => Except.ok (ts.map fun _ => [1, 2])
    docsWrite := fun _ => true
    upsertSection := fun _ => UpsertRes.dict true (some (S "conflict")) }

/-- Counterexample to C1 as stated: in a concrete run both section-upsert
results carry an explicit `error` field (`{"ok": true, "error":
"conflict"}`), yet the orchestrator does not raise — it returns a normal
`VectorizeResult` after processing both sections, because the source only
checks `isinstance(res, dict)` and the truthiness of `res.get("ok")`. -/
theorem upsert_error_field_no_raise_cex :
    ((vectorize_and_upsert cryptoA envErrField fjTwo none 64).2.sectionUpserts.map
        envErrField.upsertSection) =
      [UpsertRes.dict true (some (S "conflict")), UpsertRes.dict true (some (S "conflict"))] ∧
    (vectorize_and_upsert cryptoA envErrField fjTwo none 64).1 = Except.ok rA := by
  exact ⟨by decide, rfl⟩

/-- C1 (amended): when a performed section upsert's result fails the
orchestrator's check — it is not a mapping or its `ok` field is falsy or
absent (an explicit `error` field alone does not trigger the check) — the
run raises immediately: the raised message is `"Section upsert failed: "`
followed by the store's error string (so it contains that string), the
failing upsert is the last section upsert performed (no further sections
are processed), and every earlier section upsert's result had passed the
check — those writes are not rolled back (the trace keeps them and the
orchestrator performs no compensating store operation). -/
theorem upsert_fail_fast (π : Crypto) {V : Type} (env : Env V) (fj : FinalJson)
    (em : Option Str) (bs : Nat) (res : Except Str VectorizeResult) (tr : Trace V)
    (h : vectorize_and_upsert π env fj em bs = (res, tr))
    (a : SectionArgs V) (ha : a ∈ tr.sectionUpserts)
    (hfail : upsertFailed (env.upsertSection a) = true) :
    res = Except.error
      (S "Section upsert failed: " ++ upsertErrStr (env.upsertSection a)) ∧
    upsertErrStr (env.upsertSection a) <:+:
      S "Section upsert failed: " ++ upsertErrStr (env.upsertSection a) ∧
    tr.sectionUpserts.getLast? = some a ∧
    ∀ b ∈ tr.sectionUpserts.dropLast, upsertFailed (env.upsertSection b) = false := by
  rcases run_cases π env fj em bs with ⟨-, hrun⟩ | ⟨-, e, calls, -, hrun⟩ |
    ⟨-, vectors, calls, hE, ⟨hW, hrun⟩ | ⟨hW, res2, ups, hU, hrun⟩⟩
  · have hp := h.symm.trans hrun
    injection hp with hres htr
    rw [htr] at ha
    simp at ha
  · have hp := h.symm.trans hrun
    injection hp with hres htr
    rw [htr] at ha
    simp at ha
  · have hp := h.symm.trans hrun
    injection hp with hres htr
    rw [htr] at ha
    simp at ha
  · have hp := h.symm.trans hrun
    injection hp with hres htr
    rw [htr] at ha
    simp only at ha
    cases res2 with
    | ok u =>
      obtain ⟨-, hall⟩ := upsertLoop_ok π env (docHashOf π fj em) (modelOf em)
        (skillsOf fj) (almaOf fj) (industriesOf fj) ((itemsOf fj).zip vectors) ups hU
      rw [hall a ha] at hfail
      exact absurd hfail (by simp)
    | error e =>
      obtain ⟨pre, last, hsplit, hpre, hlastfail, hmsg⟩ := upsertLoop_error π env
        (docHashOf π fj em) (modelOf em) (skillsOf fj) (almaOf fj) (industriesOf fj)
        ((itemsOf fj).zip vectors) e ups hU
      have halast : a = last := by
        rw [hsplit] at ha
        rcases List.mem_append.mp ha with hpre' | hlast'
        · rw [hpre a hpre'] at hfail
          exact absurd hfail (by simp)
        · simpa using hlast'
      subst halast
      refine ⟨?_, (List.suffix_append _ _).isInfix, ?_, ?_⟩
      · rw [hres]
        simp [Except.map, hmsg]
      · rw [htr]
        simp only
        rw [hsplit, List.getLast?_concat]
      · intro b hb
        rw [htr] at hb
        simp only at hb
        rw [hsplit, List.dropLast_concat] at hb
        exact hpre b hb

/-- Environment whose section upsert answers `{"ok": false, "error":
"conflict"}` for the `"beta"` section and succeeds otherwise
(Scenario D). -/
def envConflict : Env Int :=
  { embed := fun ts _ => Except.ok (ts.map fun _ => [1, 2])
    docsWrite := fun _ => true
    upsertSection := fun args =>
      if args.text = S "beta" then UpsertRes.dict false (some (S "conflict"))
      else UpsertRes.dict true none }

/-- Placeholder record used only as the `getLastD` default below. -/
def junkArgs : SectionArgs Int :=
  { parent_sha := [], sectionName := [], subsection := [], text := [],
    page_start := none, page_end := none, vector := [], model := [],
    embed_hash := [], skills_norm := [], alma_mater := [], industries_norm := [] }

/-- The failing section-upsert call of the `envConflict` run of `fjTwo`. -/
def aFail : SectionArgs Int :=
  ((vectorize_and_upsert cryptoA envConflict fjTwo none 64).2.sectionUpserts).getLastD junkArgs

/-- Witness for the amended C1 on the Scenario D run: two sections, the
second upsert rejected with error `"conflict"`. -/
theorem upsert_fail_fast_witness :
    (vectorize_and_upsert cryptoA envConflict fjTwo none 64).1 =
      Except.error
        (S "Section upsert failed: " ++ upsertErrStr (envConflict.upsertSection aFail)) ∧
    upsertErrStr (envConflict.upsertSection aFail) <:+:
      S "Section upsert failed: " ++ upsertErrStr (envConflict.upsertSection aFail) ∧
    (vectorize_and_upsert cryptoA envConflict fjTwo none 64).2.sectionUpserts.getLast? =
      some aFail ∧
    ∀ b ∈ (vectorize_and_upsert cryptoA envConflict fjTwo none 64).2.sectionUpserts.dropLast,
      upsertFailed (envConflict.upsertSection b) = false :=
  upsert_fail_fast cryptoA envConflict fjTwo none 64
    (vectorize_and_upsert cryptoA envConflict fjTwo none 64).1
    (vectorize_and_upsert cryptoA envConflict fjTwo none 64).2
    rfl aFail (by decide) (by decide)

/-! ## C4 — chunk filtering (corrected: only empty text is dropped) -/

/-- Unfolding of the chunk loop on one section. -/
theorem prepareChunks_cons (ch : SectionIn) (rest : List SectionIn) :
    prepareChunks (ch :: rest) =
      if _truncate (ch.text.getD []) MAX_CHARS_PER_CHUNK = [] then prepareChunks rest
      else (_truncate (ch.text.getD []) MAX_CHARS_PER_CHUNK,
        { sectionName := pyStrip (ch.sectionName.getD [])
          subsection := pyStrip (ch.subsection.getD [])
          page_start := ch.page_start
          page_end := ch.page_end }) :: prepareChunks rest := by
  simp only [prepareChunks, List.filterMap_cons]
  by_cases hc : _truncate (ch.text.getD []) MAX_CHARS_PER_CHUNK = []
  · rw [if_pos hc, if_pos hc]
  · rw [if_neg hc, if_neg hc]

/-- C4 (amended): a section is dropped exactly when its truncated text is
empty; every section whose truncated text is non-empty (including
whitespace-only text) produces exactly one ChunkItem, in input order, so
the number of emitted SectionRecords equals the number of sections with
non-empty truncated text. -/
theorem chunk_filter_exact (sections : List SectionIn) :
    prepareChunks sections =
      ((sections.filter fun ch =>
          !(_truncate (ch.text.getD []) MAX_CHARS_PER_CHUNK).isEmpty).map fun ch =>
        (_truncate (ch.text.getD []) MAX_CHARS_PER_CHUNK,
         { sectionName := pyStrip (ch.sectionName.getD [])
           subsection := pyStrip (ch.subsection.getD [])
           page_start := ch.page_start
           page_end := ch.page_end })) ∧
    (prepareChunks sections).length =
      (sections.filter fun ch =>
        !(_truncate (ch.text.getD []) MAX_CHARS_PER_CHUNK).isEmpty).length := by
  have h1 : prepareChunks sections =
      ((sections.filter fun ch =>
          !(_truncate (ch.text.getD []) MAX_CHARS_PER_CHUNK).isEmpty).map fun ch =>
        (_truncate (ch.text.getD []) MAX_CHARS_PER_CHUNK,
         { sectionName := pyStrip (ch.sectionName.getD [])
           subsection := pyStrip (ch.subsection.getD [])
           page_start := ch.page_start
           page_end := ch.page_end })) := by
    induction sections with
    | nil => rfl
    | cons ch rest ih =>
      rw [prepareChunks_cons, List.filter_cons]
      by_cases hc : _truncate (ch.text.getD []) MAX_CHARS_PER_CHUNK = []
      · rw [if_pos hc, ih]
        have hb : (!(_truncate (ch.text.getD []) MAX_CHARS_PER_CHUNK).isEmpty) = false := by
          rw [List.isEmpty_iff.mpr hc]
          rfl
        rw [if_neg (by rw [hb]; exact Bool.false_ne_true)]
      · rw [if_neg hc, ih]
        have hb : (!(_truncate (ch.text.getD []) MAX_CHARS_PER_CHUNK).isEmpty) = true := by
          rw [Bool.not_eq_true', ← Bool.not_eq_true, List.isEmpty_iff]
          exact hc
        rw [if_pos hb, List.map_cons]
  exact ⟨h1, by rw [h1, List.length_map]⟩

/-- One section whose text is a single space: whitespace-only but
non-empty. -/
def secWs : SectionIn :=
  { text := some (S " "), sectionName := none, subsection := none,
    page_start := none, page_end := none }

/-- Input holding only the whitespace section. -/
def fjWs : FinalJson :=
  { candidate_id := none, source := none, sections := some [secWs], extraction := none }

/-- Counterexample to C4 as stated: the section text `" "` is
whitespace-only after truncation (its strip is empty while the text is
not), yet it is not excluded — it yields a ChunkItem and, in a concrete
all-success run, one section upsert and `sections_indexed = 1`. -/
theorem whitespace_section_indexed_cex :
    _truncate (S " ") MAX_CHARS_PER_CHUNK = S " " ∧
    pyStrip (S " ") = [] ∧
    (prepareChunks [secWs]).length = 1 ∧
    (vectorize_and_upsert cryptoA envA fjWs none 64).2.sectionUpserts.length = 1 ∧
    (vectorize_and_upsert cryptoA envA fjWs none 64).1 =
      Except.ok { document_sha := docHashOf cryptoA fjWs none, document_vector_dim := 2,
                  sections_indexed := 1, model := EMBED_MODEL_DEFAULT } :=
  ⟨by decide, by decide, by decide, by decide, rfl⟩

/-! ## C6 — batched embedding refines a single facade call -/

/-- Batch-splitting an order-preserving facade: at batch size at least 1,
working through the batches and concatenating equals one call over all
texts. -/
theorem chunk_embed_all {V : Type} (env : Env V) (model : Str) (f : Str → List V)
    (hpt : ∀ ts, env.embed ts model = Except.ok (ts.map f)) (bs : Nat) (hbs : 1 ≤ bs) :
    ∀ fuel ts, ts.length ≤ fuel →
      (embedBatches env model (chunkGo bs fuel ts)).1 = Except.ok (ts.map f) := by
  intro fuel
  induction fuel with
  | zero =>
    intro ts h
    have hts : ts = [] := List.length_eq_zero.mp (Nat.le_zero.mp h)
    subst hts
    rfl
  | succ fuel ih =>
    intro ts h
    cases ts with
    | nil => rfl
    | cons c t =>
      have hmax : max 1 bs = bs := Nat.max_eq_right hbs
      simp only [chunkGo, hmax, embedBatches, hpt]
      rw [ih ((c :: t).drop bs)
        (by rw [List.length_drop]; simp only [List.length_cons] at h ⊢; omega)]
      simp only [Except.map]
      rw [← List.map_append, List.take_append_drop]

/-- C6: for batch size at least 1 and an order-preserving facade (vector i
is a function of text i alone), embedding the chunk texts group-by-group
and concatenating the per-group results in order equals a single facade
call over all texts — vector i stays aligned with chunk text i. -/
theorem batching_refines_single_call {V : Type} (env : Env V) (model : Str)
    (f : Str → List V) (texts : List Str) (bs : Nat) (hbs : 1 ≤ bs)
    (hpt : ∀ ts, env.embed ts model = Except.ok (ts.map f)) :
    (embedBatches env model (pyBatches bs texts)).1 = Except.ok (texts.map f) ∧
    (embedBatches env model (pyBatches bs texts)).1 = env.embed texts model := by
  have h1 := chunk_embed_all env model f hpt bs hbs texts.length texts (Nat.le_refl _)
  exact ⟨h1, by unfold pyBatches; rw [h1, hpt]⟩

/-- Witness for C6: three texts in batches of two under the constant-vector
facade of `envA`. -/
theorem batching_refines_single_call_witness :
    (embedBatches envA EMBED_MODEL_DEFAULT (pyBatches 2 [S "a", S "b", S "c"])).1 =
      Except.ok ([S "a", S "b", S "c"].map fun _ => ([1, 2] : List Int)) ∧
    (embedBatches envA EMBED_MODEL_DEFAULT (pyBatches 2 [S "a", S "b", S "c"])).1 =
      envA.embed [S "a", S "b", S "c"] EMBED_MODEL_DEFAULT :=
  batching_refines_single_call envA EMBED_MODEL_DEFAULT (fun _ => [1, 2])
    [S "a", S "b", S "c"] 2 (by decide) (fun ts => rfl)

/-! ## C7 — only the coarse document vector degrades; other failures raise -/

/-- If every batch call succeeds, the batched embedding succeeds. -/
theorem embedBatches_ok_of_all {V : Type} (env : Env V) (model : Str) :
    ∀ bl, (∀ b ∈ bl, ∃ vs, env.embed b model = Except.ok vs) →
      ∃ vecs, (embedBatches env model bl).1 = Except.ok vecs := by
  intro bl
  induction bl with
  | nil => intro hall; exact ⟨[], rfl⟩
  | cons b rest ih =>
    intro hall
    obtain ⟨vs, hvs⟩ := hall b (List.mem_cons_self b rest)
    obtain ⟨vecs, hrec⟩ := ih fun b' hb' => hall b' (List.mem_cons_of_mem _ hb')
    refine ⟨vs ++ vecs, ?_⟩
    simp only [embedBatches, hvs]
    rw [hrec]
    rfl

/-- A raising coarse document-level call yields the empty document
vector. -/
theorem docVecOf_of_error {V : Type} (env : Env V) (fj : FinalJson) (em : Option Str)
    (e : Str) (hdoc : env.embed (docEmbedArg fj) (modelOf em) = Except.error e) :
    docVecOf env fj em = ([] : List V) := by
  unfold docVecOf
  rw [hdoc]

/-- C7: (a) when the coarse document-level embedding call — over the
concatenation truncated to double the per-chunk budget — raises while the
chunk-batch calls succeed, the failure is caught: the document write still
occurs, it carries the empty document vector, and a normally returned
result reports `document_vector_dim = 0`; (b) any chunk-batch embedding
failure propagates: the run raises that very error and performs no store
writes at all. -/
theorem embed_failure_policy (π : Crypto) {V : Type} (env : Env V) (fj : FinalJson)
    (em : Option Str) (bs : Nat) (res : Except Str VectorizeResult) (tr : Trace V)
    (h : vectorize_and_upsert π env fj em bs = (res, tr)) :
    (itemsOf fj ≠ [] →
      (∀ b ∈ pyBatches bs ((itemsOf fj).map Prod.fst),
        ∃ vs, env.embed b (modelOf em) = Except.ok vs) →
      ∀ e, env.embed (docEmbedArg fj) (modelOf em) = Except.error e →
        tr.docWrites = [dwOf π env fj em] ∧
        (dwOf π env fj em).vector = ([] : List V) ∧
        ∀ r, res = Except.ok r → r.document_vector_dim = 0) ∧
    (∀ e calls,
      embedBatches env (modelOf em) (pyBatches bs ((itemsOf fj).map Prod.fst)) =
        (Except.error e, calls) →
      res = Except.error e ∧ tr.docWrites = [] ∧ tr.sectionUpserts = []) := by
  rcases run_cases π env fj em bs with ⟨hI, hrun⟩ | ⟨-, e0, calls0, hE, hrun⟩ |
    ⟨-, vectors, calls, hE, ⟨hW, hrun⟩ | ⟨hW, res2, ups, hU, hrun⟩⟩
  · constructor
    · intro hne
      exact absurd hI hne
    · intro e calls hEb
      rw [hI] at hEb
      simp only [List.map_nil, pyBatches, List.length_nil, chunkGo, embedBatches] at hEb
      exact absurd (congrArg Prod.fst hEb) (by simp)
  · constructor
    · intro hne hall e hdoc
      obtain ⟨vecs, hok⟩ := embedBatches_ok_of_all env (modelOf em)
        (pyBatches bs ((itemsOf fj).map Prod.fst)) hall
      rw [hE] at hok
      simp at hok
    · intro e calls hEb
      have hp := h.symm.trans hrun
      injection hp with hres htr
      have hpair := hE.symm.trans hEb
      injection hpair with h1 h2
      injection h1 with h1
      rw [htr, hres, h1]
      exact ⟨rfl, rfl, rfl⟩
  · have hp := h.symm.trans hrun
    injection hp with hres htr
    constructor
    · intro hne hall e hdoc
      refine ⟨by rw [htr], ?_, ?_⟩
      · show (dwOf π env fj em).vector = ([] : List V)
        unfold dwOf
        exact docVecOf_of_error env fj em e hdoc
      · intro r hr
        rw [hres] at hr
        simp at hr
    · intro e calls2 hEb
      have hpair := hE.symm.trans hEb
      injection hpair with h1 h2
      simp at h1
  · have hp := h.symm.trans hrun
    injection hp with hres htr
    constructor
    · intro hne hall e hdoc
      refine ⟨by rw [htr], ?_, ?_⟩
      · show (dwOf π env fj em).vector = ([] : List V)
        unfold dwOf
        exact docVecOf_of_error env fj em e hdoc
      · intro r hr
        rw [hres] at hr
        cases res2 with
        | error e2 => simp [Except.map] at hr
        | ok u =>
          injection hr with hr
          rw [← hr]
          show docDimOf env fj em = 0
          unfold docDimOf
          rw [docVecOf_of_error env fj em e hdoc]
          rfl
    · intro e calls2 hEb
      have hpair := hE.symm.trans hEb
      injection hpair with h1 h2
      simp at h1

/-- Environment in which only the coarse document-level call (recognisable
by its argument, the double-budget truncation of the concatenation of
`fjTwo`) raises; chunk batches succeed. -/
def envDocVecFail : Env Int :=
  { embed := fun ts _ =>
      if ts = [S "alpha\n\nbeta"] then Except.error (S "boom")
      else Except.ok (ts.map fun _ => [1, 2])
    docsWrite := fun _ => true
    upsertSection := fun _ => UpsertRes.dict true none }

/-- Environment whose embedding facade always raises. -/
def envBatchFail : Env Int :=
  { embed := fun _ _ => Except.error (S "boom")
    docsWrite := fun _ => true
    upsertSection := fun _ => UpsertRes.dict true none }

/-- Witness for C7: part (a) on a run whose document-level call raises
(`document write still performed with empty vector, dimension 0 reported`),
and part (b) on a run whose batch call raises (error propagated, no store
writes). -/
theorem embed_failure_policy_witness :
    ((vectorize_and_upsert cryptoA envDocVecFail fjTwo none 64).2.docWrites =
        [dwOf cryptoA envDocVecFail fjTwo none] ∧
      (dwOf cryptoA envDocVecFail fjTwo none).vector = ([] : List Int) ∧
      ∀ r, (vectorize_and_upsert cryptoA envDocVecFail fjTwo none 64).1 = Except.ok r →
        r.document_vector_dim = 0) ∧
    ((vectorize_and_upsert cryptoA envBatchFail fjTwo none 64).1 =
        Except.error (S "boom") ∧
      (vectorize_and_upsert cryptoA envBatchFail fjTwo none 64).2.docWrites = [] ∧
      (vectorize_and_upsert cryptoA envBatchFail fjTwo none 64).2.sectionUpserts = []) :=
  ⟨(embed_failure_policy cryptoA envDocVecFail fjTwo none 64
      (vectorize_and_upsert cryptoA envDocVecFail fjTwo none 64).1
      (vectorize_and_upsert cryptoA envDocVecFail fjTwo none 64).2 rfl).1
      (by decide)
      (fun b hb => by
        have hpb : pyBatches 64 ((itemsOf fjTwo).map Prod.fst) =
            [[S "alpha", S "beta"]] := by decide
        rw [hpb] at hb
        simp only [List.mem_singleton] at hb
        subst hb
        exact ⟨[[1, 2], [1, 2]], rfl⟩)
      (S "boom") rfl,
   (embed_failure_policy cryptoA envBatchFail fjTwo none 64
      (vectorize_and_upsert cryptoA envBatchFail fjTwo none 64).1
      (vectorize_and_upsert cryptoA envBatchFail fjTwo none 64).2 rfl).2
      (S "boom") [([S "alpha", S "beta"], EMBED_MODEL_DEFAULT)] rfl⟩

/-! ## C8 — metadata normalization (corrected: alma_mater is not trimmed) -/

/-- Unequal code points give unequal `UInt32` values. -/
theorem uint32_eq_of_toNat_eq {a b : UInt32} (h : a.toNat = b.toNat) : a = b := by
  cases a
  cases b
  congr 1
  exact BitVec.eq_of_toNat_eq h

/-- Characters with equal code points are equal. -/
theorem char_eq_of_toNat_eq {c d : Char} (h : c.toNat = d.toNat) : c = d :=
  Char.ext (uint32_eq_of_toNat_eq h)

/-- Outside the basic-latin upper-case range, `Char.toLower` is the
identity. -/
theorem toLower_eq_self_of_not (c : Char) (h : ¬(65 ≤ c.toNat ∧ c.toNat ≤ 90)) :
    Char.toLower c = c := by
  simp only [Char.toLower]
  exact if_neg fun hh => h ⟨hh.1, hh.2⟩

/-- Code point of `Char.toLower`. -/
theorem toNat_toLower (c : Char) :
    (Char.toLower c).toNat =
      if 65 ≤ c.toNat ∧ c.toNat ≤ 90 then c.toNat + 32 else c.toNat := by
  by_cases h : 65 ≤ c.toNat ∧ c.toNat ≤ 90
  · rw [if_pos h]
    simp only [Char.toLower]
    rw [if_pos ⟨h.1, h.2⟩]
    have hv : Nat.isValidChar (c.toNat + 32) := Or.inl (by omega)
    unfold Char.ofNat
    rw [dif_pos hv]
    simp [Char.ofNatAux, Char.toNat, UInt32.toNat, BitVec.toNat_ofNatLt]
  · rw [if_neg h, toLower_eq_self_of_not c h]

/-- Lower-casing a character twice equals lower-casing it once. -/
theorem toLower_toLower (c : Char) :
    Char.toLower (Char.toLower c) = Char.toLower c := by
  by_cases h : 65 ≤ c.toNat ∧ c.toNat ≤ 90
  · have h1 : (Char.toLower c).toNat = c.toNat + 32 := by rw [toNat_toLower, if_pos h]
    exact toLower_eq_self_of_not _ (by omega)
  · rw [toLower_eq_self_of_not c h]
    exact toLower_eq_self_of_not c h

/-- A character whose code point is none of space, tab, carriage return or
newline is not whitespace. -/
theorem isWhitespace_eq_false_of (d : Char)
    (h : d.toNat ≠ 32 ∧ d.toNat ≠ 9 ∧ d.toNat ≠ 13 ∧ d.toNat ≠ 10) :
    d.isWhitespace = false := by
  unfold Char.isWhitespace
  simp only [Bool.or_eq_false_iff, decide_eq_false_iff_not]
  refine ⟨⟨⟨?_, ?_⟩, ?_⟩, ?_⟩
  · intro he; exact h.1 (by rw [he]; decide)
  · intro he; exact h.2.1 (by rw [he]; decide)
  · intro he; exact h.2.2.1 (by rw [he]; decide)
  · intro he; exact h.2.2.2 (by rw [he]; decide)

/-- Lower-casing does not change whether a character is whitespace. -/
theorem isWhitespace_toLower (c : Char) :
    Char.isWhitespace (Char.toLower c) = Char.isWhitespace c := by
  by_cases h : 65 ≤ c.toNat ∧ c.toNat ≤ 90
  · have h1 : (Char.toLower c).toNat = c.toNat + 32 := by rw [toNat_toLower, if_pos h]
    rw [isWhitespace_eq_false_of (Char.toLower c) (by omega),
      isWhitespace_eq_false_of c (by omega)]
  · rw [toLower_eq_self_of_not c h]

/-- A prefix of a list with no removable leading elements itself has no
removable leading elements. -/
theorem prefix_dropWhile_eq_self {α : Type} {p : α → Bool} {l l' : List α}
    (hp : l' <+: l) (hl : l.dropWhile p = l) : l'.dropWhile p = l' := by
  cases l' with
  | nil => rfl
  | cons a t =>
    obtain ⟨rest, hrest⟩ := hp
    have hpa : p a = false := by
      by_contra hc
      have hpa' : p a = true := by simpa using hc
      rw [← hrest, List.cons_append, List.dropWhile_cons_of_pos hpa'] at hl
      have hle := (List.dropWhile_suffix p (l := t ++ rest)).length_le
      have hlen := congrArg List.length hl
      rw [List.length_cons] at hlen
      omega
    rw [List.dropWhile_cons_of_neg (by simp [hpa])]

/-- Stripping is idempotent. -/
theorem pyStrip_idem (s : Str) : pyStrip (pyStrip s) = pyStrip s := by
  have he : ∀ t : Str,
      pyStrip t = List.rdropWhile Char.isWhitespace (t.dropWhile Char.isWhitespace) :=
    fun t => rfl
  rw [he, he]
  rw [prefix_dropWhile_eq_self ( List.rdropWhile_prefix _ _)
    (List.dropWhile_idempotent _ _)]
  exact List.rdropWhile_idempotent _ _

/-- Stripping commutes with lower-casing. -/
theorem pyStrip_map_toLower (s : Str) :
    pyStrip (s.map Char.toLower) = (pyStrip s).map Char.toLower := by
  have hws : (Char.isWhitespace ∘ Char.toLower) = Char.isWhitespace :=
    funext isWhitespace_toLower
  simp only [pyStrip]
  rw [List.dropWhile_map, hws, ← List.map_reverse, List.dropWhile_map, hws,
    ← List.map_reverse]

/-- Every string produced by `_lower_list` is in normal form: lower-casing
and stripping both leave it unchanged. -/
theorem mem_lower_list_invariant (lst : List Str) :
    ∀ x ∈ _lower_list lst, x.map Char.toLower = x ∧ pyStrip x = x := by
  intro x hx
  simp only [_lower_list, List.mem_map] at hx
  obtain ⟨y, -, rfl⟩ := hx
  constructor
  · rw [List.map_map, show Char.toLower ∘ Char.toLower = Char.toLower from
      funext toLower_toLower]
  · rw [pyStrip_map_toLower, pyStrip_idem]

/-- Every string produced by the field normalization is lower-cased and
trimmed. -/
theorem normField_invariant (field : Option StrOrList) :
    ∀ x ∈ normStrListField field, x.map Char.toLower = x ∧ pyStrip x = x := by
  intro x hx
  cases field with
  | none => exact mem_lower_list_invariant [] x hx
  | some sf =>
    cases sf with
    | str v =>
      by_cases hv : v = []
      · rw [show normStrListField (some (StrOrList.str v)) = _lower_list [] by
          simp [normStrListField, hv]] at hx
        exact mem_lower_list_invariant [] x hx
      · rw [show normStrListField (some (StrOrList.str v)) =
            _lower_list (splitCommaStrip v) by simp [normStrListField, hv]] at hx
        exact mem_lower_list_invariant (splitCommaStrip v) x hx
    | lst v => exact mem_lower_list_invariant v x hx

/-- C8 (amended): the metadata normalization is total on any `extraction`
value (absent, non-mapping, or mapping — the source's `isinstance` guards
make it raise-free); `skills_norm` and `industries_norm` accept a native
list or a comma-delimited string and always come out as lists of
lower-cased, trimmed strings (so `"Python, Go"` normalizes to
`["python", "go"]`); `alma_mater` comes out as the raw field string —
NOT trimmed — defaulting to empty. -/
theorem metadata_normalization (e : Extraction) :
    (∀ x ∈ skillsFromExtraction e, x.map Char.toLower = x ∧ pyStrip x = x) ∧
    (∀ x ∈ industriesFromExtraction e, x.map Char.toLower = x ∧ pyStrip x = x) ∧
    (∀ d, e = Extraction.dict d →
      skillsFromExtraction e = normStrListField d.skills_norm ∧
      industriesFromExtraction e = normStrListField d.industries_norm ∧
      almaFromExtraction e = d.alma_mater.getD []) ∧
    (∀ t, e = Extraction.nonDict t →
      skillsFromExtraction e = [] ∧ industriesFromExtraction e = [] ∧
      almaFromExtraction e = []) ∧
    skillsFromExtraction (Extraction.dict
      { skills_norm := some (StrOrList.str (S "Python, Go")), alma_mater := none,
        industries_norm := none }) = [S "python", S "go"] := by
  refine ⟨?_, ?_, ?_, ?_, by decide⟩
  · cases e with
    | nonDict t => intro x hx; simp [skillsFromExtraction] at hx
    | dict d => exact normField_invariant d.skills_norm
  · cases e with
    | nonDict t => intro x hx; simp [industriesFromExtraction] at hx
    | dict d => exact normField_invariant d.industries_norm
  · rintro d rfl
    exact ⟨rfl, rfl, rfl⟩
  · rintro t rfl
    exact ⟨rfl, rfl, rfl⟩

/-- Extraction value with a padded `alma_mater` and both field shapes. -/
def extrB : Extraction :=
  Extraction.dict
    { skills_norm := some (StrOrList.str (S " Python, Go "))
      alma_mater := some (S " MIT ")
      industries_norm := some (StrOrList.lst [S " Tech "]) }

/-- Witness for the amended C8 at `extrB`, including a discharged
membership instance of the lower-cased/trimmed invariant. -/
theorem metadata_normalization_witness :
    skillsFromExtraction extrB = [S "python", S "go"] ∧
    industriesFromExtraction extrB = [S "tech"] ∧
    almaFromExtraction extrB = S " MIT " ∧
    ((S "python").map Char.toLower = S "python" ∧ pyStrip (S "python") = S "python") ∧
    skillsFromExtraction (Extraction.dict
      { skills_norm := some (StrOrList.str (S "Python, Go")), alma_mater := none,
        industries_norm := none }) = [S "python", S "go"] :=
  ⟨by decide, by decide, by decide,
   (metadata_normalization extrB).1 (S "python") (by decide),
   (metadata_normalization extrB).2.2.2.2⟩

/-- Input document carrying `extrB` as its extraction. -/
def fjAlma : FinalJson :=
  { candidate_id := none, source := some (S "cv.pdf"),
    sections := some [secA], extraction := some extrB }

/-- Counterexample to C8 as stated: the claim calls `alma_mater` a trimmed
string, but the source never strips it — the extraction value `" MIT "`
flows into the document write attributes unchanged, and it differs from
its trimmed form `"MIT"`. -/
theorem alma_mater_not_trimmed_cex :
    almaFromExtraction extrB = S " MIT " ∧
    pyStrip (S " MIT ") = S "MIT" ∧
    S " MIT " ≠ S "MIT" ∧
    (vectorize_and_upsert cryptoA envA fjAlma none 64).2.docWrites.map
      (fun d => d.attrs.alma_mater) = [S " MIT "] :=
  ⟨by decide, by decide, by decide, by decide⟩
